import Mathlib

/-!
Verification of the sbuff byte-buffer engine (src/lib/util/sbuff.c).

Pointers are embedded as natural-number addresses/offsets; machine `size_t`
arithmetic is `Nat`, with an explicit `% 2 ^ 64` where the source relies on
wraparound.  Buffer contents are lists of byte values (0..255 as `Nat`).
Functions that live in the missing header (sbuff.h) are modelled from the
spec and carry a doc comment saying so; everything else is translated from
sbuff.c.
-/

set_option autoImplicit false

namespace Sbuff

/-- Width of `size_t` (the source targets a 64-bit platform). -/
def W : Nat := 2 ^ 64

/-- The `SIZE_MAX` sentinel used by the copy primitives. -/
def SIZE_MAX : Nat := W - 1

/-- C `isspace` on a byte (C locale): space, \t, \n, \v, \f, \r. -/
def isspace (c : Nat) : Bool := c = 32 || (9 ≤ c && c ≤ 13)

/-- C `tolower` on a byte (C locale). -/
def tolower (c : Nat) : Nat := if 65 ≤ c ∧ c ≤ 90 then c + 32 else c

/-- A read-side view of an sbuff: `data` is the byte region `[start, end)`
and `pos` is the cursor offset `p - start` (so `start ≤ p ≤ end` becomes
`pos ≤ data.length`). -/
structure SrcBuf where
  data : List Nat
  pos : Nat
deriving DecidableEq

/-- Modelled from the spec: `remaining-length` is `end - p`. -/
def fr_sbuff_remaining (b : SrcBuf) : Nat := b.data.length - b.pos

/-- Modelled from the spec: `advance(n)` moves the cursor forward by `n`
bytes while enforcing the end-of-buffer limit; it reports the number of
bytes advanced (0 when the request would overrun `end`). -/
def fr_sbuff_advance (b : SrcBuf) (n : Nat) : SrcBuf × Nat :=
  if b.pos + n > b.data.length then (b, 0) else ({ b with pos := b.pos + n }, n)

/-- Modelled from the spec: `set-position` moves the cursor to offset `p`
and reports how many bytes the cursor moved forward. -/
def fr_sbuff_set (b : SrcBuf) (p : Nat) : SrcBuf × Nat :=
  ({ b with pos := p }, p - b.pos)

/-- fr_sbuff_out_bstrncpy_exact (sbuff.c): copy exactly `len` bytes out of
the sbuff into a destination of size `outlen`.  The result is the C return
value (`ssize_t`), the destination contents (`none` when nothing at all was
written, `some bytes` for the bytes written before the terminator), and the
source view after the call. -/
def fr_sbuff_out_bstrncpy_exact (outlen : Nat) (inb : SrcBuf) (len : Nat) :
    Int × Option (List Nat) × SrcBuf :=
  let len := if len = SIZE_MAX then inb.data.length - inb.pos else len
  if outlen = 0 then (-((len : Int) + 1), none, inb)
  else
    let outlen := outlen - 1
    if len > outlen then ((outlen : Int) - (len : Int), none, inb)
    else if inb.pos + len > inb.data.length then (0, none, inb)
    else (len, some ((inb.data.drop inb.pos).take len), (fr_sbuff_advance inb len).1)

/-- fr_sbuff_out_bstrncpy (sbuff.c): best-effort copy of up to `len` bytes,
clamped by the destination size (STRNCPY_TRIM_LEN) and the bytes available.
Result: (bytes reported copied, destination contents, source after). -/
def fr_sbuff_out_bstrncpy (outlen : Nat) (inb : SrcBuf) (len : Nat) :
    Nat × Option (List Nat) × SrcBuf :=
  if outlen = 0 then (0, none, inb)
  else
    let outlen := outlen - 1
    let len := if len = SIZE_MAX then inb.data.length - inb.pos else len
    let len := if len > outlen then outlen else len
    let len := if inb.pos + len > inb.data.length then inb.data.length - inb.pos else len
    (len, some ((inb.data.drop inb.pos).take len), (fr_sbuff_advance inb len).1)

/-- The parse-error classification (fr_sbuff_parse_error_t). -/
inductive ParseErr where
  | ok
  | notFound
  | trailing
  | numOverflow
  | numUnderflow
deriving DecidableEq

def LLONG_MAX : Int := 2 ^ 63 - 1

def LLONG_MIN : Int := -(2 ^ 63)

def ULLONG_MAX : Nat := W - 1

/-- The longest prefix of decimal digit bytes. -/
def digitsPrefix (s : List Nat) : List Nat := s.takeWhile (fun c => 48 ≤ c && c ≤ 57)

/-- Base-10 value of a list of digit bytes. -/
def digitsValue (ds : List Nat) : Nat := ds.foldl (fun a c => a * 10 + (c - 48)) 0

/-- Modelled from the spec: the platform base-10 signed parser (`strtoll`)
run on a NUL-terminated scratch string.  It skips leading whitespace, reads
an optional sign and then decimal digits, clamping to the long long range;
the second component is the number of characters consumed (`end - buff`),
which is 0 when no digits were converted. -/
def strtoll (s : List Nat) : Int × Nat :=
  let wsLen := (s.takeWhile (fun c => isspace c)).length
  let rest := s.drop wsLen
  let signLen := match rest with
    | c :: _ => if c = 45 ∨ c = 43 then 1 else 0
    | [] => 0
  let neg : Bool := match rest with
    | c :: _ => c = 45
    | [] => false
  let ds := digitsPrefix (rest.drop signLen)
  if ds = [] then (0, 0)
  else
    let v : Int := (if neg then -1 else 1) * (digitsValue ds : Int)
    let v := if v > LLONG_MAX then LLONG_MAX else if v < LLONG_MIN then LLONG_MIN else v
    (v, wsLen + signLen + ds.length)

/-- Modelled from the spec: the platform base-10 unsigned parser
(`strtoull`): like `strtoll` but the value is clamped to `ULLONG_MAX` and a
leading minus sign negates the value modulo `2 ^ 64`. -/
def strtoull (s : List Nat) : Nat × Nat :=
  let wsLen := (s.takeWhile (fun c => isspace c)).length
  let rest := s.drop wsLen
  let signLen := match rest with
    | c :: _ => if c = 45 ∨ c = 43 then 1 else 0
    | [] => 0
  let neg : Bool := match rest with
    | c :: _ => c = 45
    | [] => false
  let ds := digitsPrefix (rest.drop signLen)
  if ds = [] then (0, 0)
  else
    let uv := min (digitsValue ds) ULLONG_MAX
    let v := if neg then (W - uv % W) % W else uv
    (v, wsLen + signLen + ds.length)

/-- Result of one signed integer parse: the classification, the value stored
through `out` (`none` when `*out` is not written), the returned length, and
the input sbuff afterwards. -/
structure IntParse where
  err : ParseErr
  out : Option Int
  ret : Nat
  src : SrcBuf
deriving DecidableEq

/-- SBUFF_PARSE_INT_DEF (sbuff.c): copy up to `max_char` candidate bytes
into a `max_char + 1`-byte scratch buffer through a non-advancing child view
(FR_SBUFF_NO_ADVANCE), run `strtoll`, classify, and only on success advance
the source by the characters the parser consumed.  `errnoEinval` models the
ambient `errno == EINVAL` test (nothing on this path sets errno). -/
def SBUFF_PARSE_INT (mn mx : Int) (max_char : Nat) (errnoEinval no_trailing : Bool)
    (inb : SrcBuf) : IntParse :=
  let len := (fr_sbuff_out_bstrncpy (max_char + 1) inb max_char).1
  let buff := ((fr_sbuff_out_bstrncpy (max_char + 1) inb max_char).2.1).getD []
  if len = 0 then ⟨.notFound, none, 0, inb⟩
  else
    let num := (strtoll buff).1
    let consumed := (strtoll buff).2
    if consumed = 0 then ⟨.trailing, none, 0, inb⟩
    else if num > mx ∨ (errnoEinval ∧ num = LLONG_MAX) then ⟨.numOverflow, some mx, 0, inb⟩
    else if no_trailing ∧ buff.getD consumed 0 ≠ 0 then ⟨.trailing, some mx, 0, inb⟩
    else if num < mn ∨ (errnoEinval ∧ num = LLONG_MIN) then ⟨.numUnderflow, some mn, 0, inb⟩
    else ⟨.ok, some num, consumed, (fr_sbuff_advance inb consumed).1⟩

/-- fr_sbuff_out_int8 = SBUFF_PARSE_INT_DEF(int8, int8_t, INT8_MIN, INT8_MAX, 2). -/
def fr_sbuff_out_int8 (errnoEinval no_trailing : Bool) (inb : SrcBuf) : IntParse :=
  SBUFF_PARSE_INT (-128) 127 2 errnoEinval no_trailing inb

/-- Result of one unsigned integer parse. -/
structure UIntParse where
  err : ParseErr
  out : Option Nat
  ret : Nat
  src : SrcBuf
deriving DecidableEq

/-- SBUFF_PARSE_UINT_DEF (sbuff.c): the unsigned analogue of
`SBUFF_PARSE_INT`, using `strtoull` (no underflow branch). -/
def SBUFF_PARSE_UINT (mx : Nat) (max_char : Nat) (errnoEinval no_trailing : Bool)
    (inb : SrcBuf) : UIntParse :=
  let len := (fr_sbuff_out_bstrncpy (max_char + 1) inb max_char).1
  let buff := ((fr_sbuff_out_bstrncpy (max_char + 1) inb max_char).2.1).getD []
  if len = 0 then ⟨.notFound, none, 0, inb⟩
  else
    let num := (strtoull buff).1
    let consumed := (strtoull buff).2
    if consumed = 0 then ⟨.trailing, none, 0, inb⟩
    else if num > mx ∨ (errnoEinval ∧ num = ULLONG_MAX) then ⟨.numOverflow, some mx, 0, inb⟩
    else if no_trailing ∧ buff.getD consumed 0 ≠ 0 then ⟨.trailing, some mx, 0, inb⟩
    else ⟨.ok, some num, consumed, (fr_sbuff_advance inb consumed).1⟩

/-- fr_sbuff_out_uint8 = SBUFF_PARSE_UINT_DEF(uint8, uint8_t, UINT8_MAX, 1). -/
def fr_sbuff_out_uint8 (errnoEinval no_trailing : Bool) (inb : SrcBuf) : UIntParse :=
  SBUFF_PARSE_UINT 255 1 errnoEinval no_trailing inb

/-- One fr_sbuff_t view: `start`/`endp`/`p` are addresses (offsets into the
address space), `shifted` is the cumulative compaction counter and `m` the
positions of the attached markers. -/
structure Sview where
  start : Nat
  endp : Nat
  p : Nat
  shifted : Nat
  m : List Nat
deriving DecidableEq

/-- update_ptr of fr_sbuff_update: `_field = new_buff + (_field - old_buff)`
(pointer arithmetic; exact whenever the C result is a valid address). -/
def update_ptr (old_buff new_buff f : Nat) : Nat := new_buff + f - old_buff

/-- One iteration of fr_sbuff_update's loop on a single view.  Note the
marker branch of the source sets `sbuff_i->p = sbuff_i->end` when a rebased
marker lands past `end`; the marker itself is left where it is. -/
def fr_sbuff_update_view (old_buff new_buff new_len : Nat) (v : Sview) : Sview × Bool :=
  let start' := update_ptr old_buff new_buff v.start
  let endp' := start' + new_len
  let p1 := update_ptr old_buff new_buff v.p
  let pBad := decide (p1 > endp')
  let p2 := if p1 > endp' then endp' else p1
  let ms := v.m.map (update_ptr old_buff new_buff)
  let mBad := ms.any (fun mp => decide (mp > endp'))
  let p3 := if mBad then endp' else p2
  (⟨start', endp', p3, v.shifted, ms⟩, pBad || mBad)

/-- fr_sbuff_update (sbuff.c): rebase the operated-on view and every
ancestor (the list head is the operated-on view) onto `new_buff`/`new_len`;
returns the updated chain and the C return value (0, or -1 when some
pointer was out of range). -/
def fr_sbuff_update (chain : List Sview) (new_buff new_len : Nat) : List Sview × Int :=
  match chain with
  | [] => ([], 0)
  | v :: _ =>
    let res := chain.map (fr_sbuff_update_view v.start new_buff new_len)
    (res.map Prod.fst, if res.any Prod.snd then -1 else 0)

/-- update_max_shift of fr_sbuff_shift:
`if ((buff + max_shift) > field) max_shift -= ((buff + max_shift) - field)`.
The subtraction is `size_t`; for in-range positions (`buff ≤ f`) this is
exactly `min ms (f - buff)`, which the truncated form below also gives. -/
def update_max_shift (buff ms f : Nat) : Nat :=
  if buff + ms > f then ms - (buff + ms - f) else ms

/-- update_ptr of fr_sbuff_shift:
`_field = ((_field) - (_shift)) <= (_buff) ? (_buff) : ((_field) - (_shift))`. -/
def shift_update_ptr (buff shift f : Nat) : Nat :=
  if f - shift ≤ buff then buff else f - shift

/-- The positions fr_sbuff_shift walks for one view: its cursor and the
positions of its markers. -/
def view_positions (v : Sview) : List Nat := v.p :: v.m

/-- All positions walked over a whole chain. -/
def chain_positions (chain : List Sview) : List Nat :=
  (chain.map view_positions).flatten

/-- State operated on by fr_sbuff_shift: the view chain (head = operated-on
view), the backing memory (byte at address `i` is `mem[i]`) and the
`is_const` flag of the operated-on view. -/
structure ShiftState where
  chain : List Sview
  mem : List Nat
  is_const : Bool
deriving DecidableEq

/-- fr_sbuff_shift (sbuff.c): constrain the requested shift by every cursor
and marker position in the chain, then move every position down by the
resulting amount (floored at `buff = sbuff->start`), accumulate `shifted`,
and re-write the NUL terminator at the new cursor when the byte at the old
cursor was NUL and the view is not const.  The contents of the buffer are
NOT moved (the source's comment leaves the memmove to the caller).  Reading
`*sbuff->p` out of range is undefined in C; the model uses a default of 1
(a non-NUL byte). -/
def fr_sbuff_shift (st : ShiftState) (shift : Nat) : ShiftState × Nat :=
  match st.chain with
  | [] => (st, 0)
  | sb :: _ =>
    let buff := sb.start
    let reterminate := st.mem.getD sb.p 1 = 0 && !st.is_const
    let max_shift :=
      st.chain.foldl (fun ms v => (view_positions v).foldl (update_max_shift buff) ms) shift
    if max_shift = 0 then (st, 0)
    else
      let chain' := st.chain.map (fun v =>
        { v with p := shift_update_ptr buff max_shift v.p,
                 shifted := v.shifted + max_shift,
                 m := v.m.map (shift_update_ptr buff max_shift) })
      let newP := shift_update_ptr buff max_shift sb.p
      let mem' := if reterminate then st.mem.set newP 0 else st.mem
      (⟨chain', mem', st.is_const⟩, max_shift)

/-- The talloc growth context (fr_sbuff_uctx_talloc_t): configured initial
size and hard maximum. -/
structure TallocCtx where
  init : Nat
  max : Nat
deriving DecidableEq

/-- A dynamically-backed root sbuff: `alloc` is `talloc_array_length(buff)`,
the single root view has `start = 0` (reallocation is modelled in place,
which loses nothing because all positions are relative), and `content` is
the list of bytes written in `[start, p)`. -/
structure DynBuf where
  alloc : Nat
  view : Sview
  content : List Nat
  tctx : TallocCtx
deriving DecidableEq

/-- Modelled from the spec: initialize-over-dynamic-region(initial_size,
max_size) allocates `init + 1` bytes (content plus terminator); the view
spans the allocation minus the terminator byte. -/
def fr_sbuff_init_talloc (init max : Nat) : DynBuf :=
  ⟨init + 1, ⟨0, init, 0, 0, []⟩, [], ⟨init, max⟩⟩

/-- The pre-clamp extension size chosen by fr_sbuff_extend_talloc: grow to
`init` plus a terminator byte when the current allocation plus the request
is below the configured initial size, double (allocate `clen - 1` more,
not double-counting the terminator) when the request is smaller than the
current allocation, else take the request as is. -/
def extend_elen0 (init clen ext : Nat) : Nat :=
  if clen + ext < init then (init - clen) + 1
  else if ext < clen then clen - 1
  else ext

/-- fr_sbuff_extend_talloc (sbuff.c): pick the extension size (grow to
`init + 1` when below the initial size, double when the request is smaller
than the current allocation, clamp at `max` reserving the terminator byte),
reallocate and rebase the view.  The clamp branch computes
`tctx->max - clen` in `size_t`, hence the explicit `% W`.  The external
allocator is assumed to succeed. -/
def fr_sbuff_extend_talloc (b : DynBuf) (extension : Nat) : DynBuf × Nat :=
  let clen := b.alloc
  let elen := extend_elen0 b.tctx.init clen extension
  if b.tctx.max ≠ 0 ∧ clen + elen > b.tctx.max then
    let elen := (b.tctx.max + W - clen) % W
    if elen = 0 then (b, 0)
    else
      let elen := (elen + 1) % W
      let nlen := (clen + elen) % W
      let chain' := (fr_sbuff_update [b.view] 0 (nlen - 1)).1
      ({ b with alloc := nlen, view := chain'.headD b.view }, elen)
  else
    let nlen := clen + elen
    let chain' := (fr_sbuff_update [b.view] 0 (nlen - 1)).1
    ({ b with alloc := nlen, view := chain'.headD b.view }, elen)

/-- fr_sbuff_trim_talloc (sbuff.c): shrink the allocation to
`(p - start) + 1` when that is below the current allocation; returns -1
when the rebase reports an out-of-range pointer. -/
def fr_sbuff_trim_talloc (b : DynBuf) : DynBuf × Int :=
  let clen := b.alloc
  let nlen := (b.view.p - b.view.start) + 1
  if nlen < clen then
    let r := fr_sbuff_update [b.view] 0 (nlen - 1)
    ({ b with alloc := nlen, view := r.1.headD b.view }, if r.2 < 0 then -1 else 0)
  else (b, 0)

/-- fr_sbuff_in_strcpy (sbuff.c) on the dynamic buffer.
FR_SBUFF_EXTEND_OR_RETURN is modelled from the spec: when fewer than `len`
bytes remain, ask the extend routine for the shortfall and fail with the
negative shortfall when it cannot supply it.  On success `strlcpy` writes
the bytes plus a terminator at the cursor (the advance is in range because
the extension supplied the shortfall). -/
def fr_sbuff_in_strcpy (b : DynBuf) (str : List Nat) : DynBuf × Int :=
  let len := str.length
  let remaining := b.view.endp - b.view.p
  if remaining < len then
    let er := fr_sbuff_extend_talloc b (len - remaining)
    if er.2 < len - remaining then (er.1, -(((len - remaining) : Nat) : Int))
    else
      ({ er.1 with content := er.1.content ++ str,
                   view := { er.1.view with p := er.1.view.p + len } }, len)
  else
    ({ b with content := b.content ++ str,
              view := { b.view with p := b.view.p + len } }, len)

/-- fr_sbuff_used: `p - start`. -/
def DynBuf.used (b : DynBuf) : Nat := b.view.p - b.view.start

/-- fr_sbuff_adv_past_str (sbuff.c).  The needle is passed with its length
(the `SIZE_MAX` path computes `strlen(needle)`, which is the same list).
The bounds test of the source is `(sbuff->p + len) >= sbuff->end`, and the
`memmem(sbuff->p, len, needle, len)` call finds a match exactly when the
next `len` bytes equal the needle. -/
def fr_sbuff_adv_past_str (b : SrcBuf) (needle : List Nat) : SrcBuf × Bool :=
  let len := needle.length
  if b.pos + len ≥ b.data.length then (b, false)
  else if (b.data.drop b.pos).take len = needle then
    ({ b with pos := b.pos + len }, true)
  else (b, false)

/-- fr_sbuff_adv_past_strcase (sbuff.c): as fr_sbuff_adv_past_str but each
pair of bytes is compared through `tolower`. -/
def fr_sbuff_adv_past_strcase (b : SrcBuf) (needle : List Nat) : SrcBuf × Bool :=
  let len := needle.length
  if b.pos + len ≥ b.data.length then (b, false)
  else if ((b.data.drop b.pos).take len).map tolower = needle.map tolower then
    ({ b with pos := b.pos + len }, true)
  else (b, false)

/-- fr_sbuff_adv_past_whitespace (sbuff.c):
`while ((p < sbuff->end) && isspace(*(sbuff->p))) p++;`
The loop guard reads the byte at the ORIGINAL cursor `sbuff->p` (which the
loop never moves), so either the loop does not run at all, or it runs until
`p` reaches `end`. -/
def fr_sbuff_adv_past_whitespace (b : SrcBuf) : SrcBuf × Nat :=
  let cond := match b.data.drop b.pos with
    | c :: _ => isspace c
    | [] => false
  let p := if cond then b.data.length else b.pos
  fr_sbuff_set b p

/-- The needle occurs in the view starting exactly at the cursor. -/
def needleAt (b : SrcBuf) (needle : List Nat) : Prop :=
  (b.data.drop b.pos).take needle.length = needle

instance (b : SrcBuf) (needle : List Nat) : Decidable (needleAt b needle) := by
  unfold needleAt; infer_instance

/-- The needle occurs at the cursor up to case (byte-wise `tolower`). -/
def needleAtCase (b : SrcBuf) (needle : List Nat) : Prop :=
  ((b.data.drop b.pos).take needle.length).map tolower = needle.map tolower

instance (b : SrcBuf) (needle : List Nat) : Decidable (needleAtCase b needle) := by
  unfold needleAtCase; infer_instance

/-! ## Theorems -/

/-- Claim C1: the spec says parsing the token "128" as an 8-bit signed
integer yields the overflow classification, output clamped to 127, 0 bytes
consumed and an unchanged cursor.  The code passes `_max_char = 2` to
SBUFF_PARSE_INT_DEF for int8 (the macro documents `_max_char` as the
maximum digits an integer of the type can use, which is 4 for int8), so
only "12" ever reaches `strtoll`: the call succeeds with value 12,
consuming 2 bytes and advancing the cursor by 2 — the overflow/clamp branch
is unreachable.  With the documented width 4 the very same macro body
produces exactly the behaviour the spec describes (second conjunct). -/
theorem int8_parse_128_bug :
    (∀ e nt : Bool, fr_sbuff_out_int8 e nt ⟨[49, 50, 56], 0⟩
        = ⟨.ok, some 12, 2, ⟨[49, 50, 56], 2⟩⟩)
    ∧ (∀ e nt : Bool, SBUFF_PARSE_INT (-128) 127 4 e nt ⟨[49, 50, 56], 0⟩
        = ⟨.numOverflow, some 127, 0, ⟨[49, 50, 56], 0⟩⟩) := by
  constructor <;> decide

/-- Claim C2: the spec says every rebased cursor AND marker that would
exceed the new `end` is clamped to `end`.  In the source's marker loop the
out-of-range branch executes `sbuff_i->p = sbuff_i->end` instead of
clamping `m_i->p`: on a view with start 0, end 5, cursor 2 and a marker at
5, updating to a 3-byte buffer leaves the marker at 5 (past the new end 3)
and clobbers the in-range cursor 2 to 3, returning -1. -/
theorem update_leaves_marker_past_end :
    fr_sbuff_update [⟨0, 5, 2, 0, [5]⟩] 0 3 = ([⟨0, 3, 3, 0, [5]⟩], -1)
    ∧ ¬(5 ≤ 3) ∧ 2 ≤ 3 := by decide

/-- Claim C5: the spec says the cursor advances past exactly the maximal
run of whitespace bytes.  The loop guard of the source reads
`isspace(*(sbuff->p))` — the byte at the original cursor, which the loop
never moves — so on " a" (one whitespace byte followed by one
non-whitespace byte) the cursor is advanced 2 bytes to the end instead of
stopping after 1. -/
theorem adv_past_whitespace_overruns :
    fr_sbuff_adv_past_whitespace ⟨[32, 97], 0⟩ = (⟨[32, 97], 2⟩, 2)
    ∧ isspace 32 = true ∧ isspace 97 = false := by decide

/-- Claim C4 counterexample: exact-copying 26 bytes into a 19-byte
destination returns `(19 - 1) - 26 = -8`, not the -7 the claim states (the
repository's own test obtains -7 by copying a 25-byte string). -/
theorem bstrncpy_exact_26_into_19 :
    (fr_sbuff_out_bstrncpy_exact 19 ⟨List.replicate 26 97, 0⟩ 26).1 = -8
    ∧ (fr_sbuff_out_bstrncpy_exact 19 ⟨List.replicate 26 97, 0⟩ 26).1 ≠ -7 := by
  decide

/-- Claim C7 counterexample: on the buffer "abcd" with cursor at 3,
`fr_sbuff_shift` by 2 succeeds (returns 2) but the buffer contents are
untouched: the byte at offset 0 afterwards is still 97 and not the byte 99
that sat at offset 2 beforehand — the function only rebases pointers and
leaves the memmove to the caller. -/
theorem shift_leaves_content_in_place :
    fr_sbuff_shift ⟨[⟨0, 4, 3, 0, []⟩], [97, 98, 99, 100], false⟩ 2
      = (⟨[⟨0, 4, 1, 2, []⟩], [97, 98, 99, 100], false⟩, 2)
    ∧ [97, 98, 99, 100].getD 0 0 ≠ [97, 98, 99, 100].getD 2 0 := by decide

/-- Claim C8 counterexample: with the view holding exactly "foo" and the
needle "foo", the needle occurs at the cursor, yet the source's
`(sbuff->p + len) >= sbuff->end` test rejects the exact fit: the call
returns false and the cursor does not move. -/
theorem adv_past_str_exact_fit :
    needleAt ⟨[102, 111, 111], 0⟩ [102, 111, 111]
    ∧ fr_sbuff_adv_past_str ⟨[102, 111, 111], 0⟩ [102, 111, 111]
      = (⟨[102, 111, 111], 0⟩, false) := by decide

theorem strtoull_single (c : Nat) :
    strtoull [c] =
      if isspace c then (0, 0)
      else if c = 45 ∨ c = 43 then (0, 0)
      else if 48 ≤ c ∧ c ≤ 57 then (c - 48, 1)
      else (0, 0) := by
  unfold strtoull digitsPrefix digitsValue
  by_cases hs : isspace c
  · simp [hs, List.takeWhile]
  · by_cases hsg : c = 45 ∨ c = 43
    · have hnd : ¬(48 ≤ c ∧ c ≤ 57) := by rcases hsg with h | h <;> omega
      simp [hs, hsg, List.takeWhile]
    · by_cases hd : 48 ≤ c ∧ c ≤ 57
      · have h45 : ¬(c = 45) := fun h => hsg (Or.inl h)
        have h43 : ¬(c = 43) := fun h => hsg (Or.inr h)
        have hmin : min (c - 48) ULLONG_MAX = c - 48 := by
          unfold ULLONG_MAX W; omega
        simp [hs, hsg, h45, h43, List.takeWhile, hd.1, hd.2, hmin]
      · simp [hs, hsg, List.takeWhile, hd]

theorem bstrncpy_two_one (inb : SrcBuf) :
    fr_sbuff_out_bstrncpy 2 inb 1 =
      match inb.data.drop inb.pos with
      | [] => (0, some [], inb)
      | c :: _ => (1, some [c], ⟨inb.data, inb.pos + 1⟩) := by
  have hsz : ¬((1 : Nat) = SIZE_MAX) := by unfold SIZE_MAX W; omega
  cases hd : inb.data.drop inb.pos with
  | nil =>
    have hlen : inb.data.length ≤ inb.pos := by
      by_contra hc
      have := List.drop_eq_nil_iff.mp hd
      omega
    have h1 : inb.pos + 1 > inb.data.length := by omega
    have h2 : inb.data.length - inb.pos = 0 := by omega
    simp [fr_sbuff_out_bstrncpy, fr_sbuff_advance, hsz, h1, h2, hd]
  | cons c t =>
    have hlen : inb.pos < inb.data.length := by
      by_contra hc
      rw [List.drop_eq_nil_iff.mpr (by omega)] at hd
      exact List.noConfusion hd
    have h1 : ¬(inb.pos + 1 > inb.data.length) := by omega
    simp [fr_sbuff_out_bstrncpy, fr_sbuff_advance, hsz, h1, hd]

theorem fr_sbuff_out_uint8_eq (e nt : Bool) (inb : SrcBuf) :
    fr_sbuff_out_uint8 e nt inb =
      match inb.data.drop inb.pos with
      | [] => ⟨.notFound, none, 0, inb⟩
      | c :: _ =>
        if isspace c then ⟨.trailing, none, 0, inb⟩
        else if c = 45 ∨ c = 43 then ⟨.trailing, none, 0, inb⟩
        else if 48 ≤ c ∧ c ≤ 57 then ⟨.ok, some (c - 48), 1, ⟨inb.data, inb.pos + 1⟩⟩
        else ⟨.trailing, none, 0, inb⟩ := by
  unfold fr_sbuff_out_uint8 SBUFF_PARSE_UINT
  rw [show (1 : Nat) + 1 = 2 from rfl, bstrncpy_two_one]
  cases hd : inb.data.drop inb.pos with
  | nil => simp
  | cons c t =>
    have hlen : inb.pos < inb.data.length := by
      by_contra hc
      rw [List.drop_eq_nil_iff.mpr (by omega)] at hd
      exact List.noConfusion hd
    have h1 : ¬(inb.pos + 1 > inb.data.length) := by omega
    by_cases hs : isspace c
    · simp [hs, strtoull_single]
    · by_cases hsg : c = 45 ∨ c = 43
      · simp [hs, hsg, strtoull_single]
      · by_cases hdg : 48 ≤ c ∧ c ≤ 57
        · have hle : ¬(c - 48 > 255) := by omega
          have hnotmax : ¬(c - 48 = ULLONG_MAX) := by unfold ULLONG_MAX W; omega
          simp [hs, hsg, hdg, strtoull_single, fr_sbuff_advance, hle, hnotmax, h1]
        · simp [hs, hsg, hdg, strtoull_single]

/-- Claim C10: fr_sbuff_out_uint8's scratch buffer is sized by
`_max_char = 1`, so at most one source byte is ever consumed and the parsed
value is at most a single decimal digit; on the token "255" the call
succeeds with value 2, consuming 1 byte. -/
theorem uint8_single_digit :
    (∀ (e nt : Bool) (inb : SrcBuf), (fr_sbuff_out_uint8 e nt inb).ret ≤ 1)
    ∧ (∀ (e nt : Bool) (inb : SrcBuf) (v : Nat),
        (fr_sbuff_out_uint8 e nt inb).out = some v → v ≤ 9)
    ∧ (∀ e nt : Bool, fr_sbuff_out_uint8 e nt ⟨[50, 53, 53], 0⟩
        = ⟨.ok, some 2, 1, ⟨[50, 53, 53], 1⟩⟩) := by
  refine ⟨?_, ?_, by decide⟩
  · intro e nt inb
    rw [fr_sbuff_out_uint8_eq]
    cases hd : inb.data.drop inb.pos with
    | nil => simp
    | cons c t =>
      dsimp only
      split_ifs <;> simp
  · intro e nt inb v
    rw [fr_sbuff_out_uint8_eq]
    cases hd : inb.data.drop inb.pos with
    | nil => simp
    | cons c t =>
      dsimp only
      split_ifs with h1 h2 h3
      · simp
      · simp
      · intro h
        simp only [UIntParse.mk.injEq] at h
        have : v = c - 48 := by
          have := Option.some.inj h
          omega
        omega
      · simp

/-- Claim C10 witness: the number-parse theorem instantiated at the
token "255". -/
theorem uint8_single_digit_witness :
    (fr_sbuff_out_uint8 false false ⟨[50, 53, 53], 0⟩).out = some 2 ∧ 2 ≤ 9 :=
  ⟨by decide, uint8_single_digit.2.1 false false ⟨[50, 53, 53], 0⟩ 2 (by decide)⟩

/-- Claim C4 (amended): an exact-mode copy whose requested length exceeds
the usable destination space returns the negative of the additional bytes
needed (`(outlen - 1) - len`, i.e. -(len + 1 - outlen)) and leaves the
source cursor unchanged with nothing written; with a zero-size destination
the deficit is `-(len + 1)` and nothing at all is written.  The concrete
instance forced by the code: copying 25 bytes (not 26) into a 19-byte
destination returns -7. -/
theorem bstrncpy_exact_deficit :
    (∀ (outlen len : Nat) (inb : SrcBuf), 1 ≤ outlen → len ≠ SIZE_MAX → outlen - 1 < len →
        fr_sbuff_out_bstrncpy_exact outlen inb len
          = ((outlen : Int) - 1 - (len : Int), none, inb))
    ∧ (∀ (len : Nat) (inb : SrcBuf), len ≠ SIZE_MAX →
        fr_sbuff_out_bstrncpy_exact 0 inb len = (-((len : Int) + 1), none, inb))
    ∧ fr_sbuff_out_bstrncpy_exact 19 ⟨List.replicate 25 97, 0⟩ 25
        = (-7, none, ⟨List.replicate 25 97, 0⟩) := by
  refine ⟨?_, ?_, by decide⟩
  · intro outlen len inb h1 h2 h3
    have h0 : ¬(outlen = 0) := by omega
    have h3' : len > outlen - 1 := h3
    simp [fr_sbuff_out_bstrncpy_exact, h2, h0, h3']
    omega
  · intro len inb h2
    simp [fr_sbuff_out_bstrncpy_exact, h2]

/-- Claim C4 witness: the amended deficit theorem instantiated at a 26-byte
request into a 19-byte destination and at a zero-size destination. -/
theorem bstrncpy_exact_deficit_witness :
    (1 : Nat) ≤ 19 ∧ (26 : Nat) ≠ SIZE_MAX ∧ 19 - 1 < 26
    ∧ fr_sbuff_out_bstrncpy_exact 19 ⟨List.replicate 26 97, 0⟩ 26
        = ((19 : Int) - 1 - 26, none, ⟨List.replicate 26 97, 0⟩)
    ∧ fr_sbuff_out_bstrncpy_exact 0 ⟨[97], 0⟩ 3 = (-((3 : Int) + 1), none, ⟨[97], 0⟩) :=
  ⟨by decide, by decide, by decide,
   bstrncpy_exact_deficit.1 19 26 ⟨List.replicate 26 97, 0⟩ (by decide) (by decide) (by decide),
   bstrncpy_exact_deficit.2.1 3 ⟨[97], 0⟩ (by decide)⟩

/-- Claim C8 (amended): fr_sbuff_adv_past_str (and the case-insensitive
fr_sbuff_adv_past_strcase) returns true and advances the cursor by the
needle's length exactly when the needle occurs at the cursor AND at least
one byte of the view remains past it (`p + len < end`, the source testing
`(sbuff->p + len) >= sbuff->end`); in every other case it returns false
with the cursor unchanged.  The claim's concrete scenarios ("foobar",
"fobar") hold as stated. -/
theorem adv_past_str_spec :
    (∀ (b : SrcBuf) (needle : List Nat),
        fr_sbuff_adv_past_str b needle = ({ b with pos := b.pos + needle.length }, true)
          ↔ needleAt b needle ∧ b.pos + needle.length < b.data.length)
    ∧ (∀ (b : SrcBuf) (needle : List Nat), (fr_sbuff_adv_past_str b needle).2 = false →
        fr_sbuff_adv_past_str b needle = (b, false))
    ∧ (∀ (b : SrcBuf) (needle : List Nat),
        fr_sbuff_adv_past_strcase b needle = ({ b with pos := b.pos + needle.length }, true)
          ↔ needleAtCase b needle ∧ b.pos + needle.length < b.data.length)
    ∧ (∀ (b : SrcBuf) (needle : List Nat), (fr_sbuff_adv_past_strcase b needle).2 = false →
        fr_sbuff_adv_past_strcase b needle = (b, false))
    ∧ fr_sbuff_adv_past_str ⟨[102, 111, 111, 98, 97, 114], 0⟩ [102, 111, 111]
        = (⟨[102, 111, 111, 98, 97, 114], 3⟩, true)
    ∧ fr_sbuff_adv_past_str ⟨[102, 111, 98, 97, 114], 0⟩ [102, 111, 111]
        = (⟨[102, 111, 98, 97, 114], 0⟩, false)
    ∧ fr_sbuff_adv_past_strcase ⟨[102, 111, 111, 98, 97, 114], 0⟩ [70, 79, 79]
        = (⟨[102, 111, 111, 98, 97, 114], 3⟩, true)
    ∧ fr_sbuff_adv_past_strcase ⟨[102, 111, 98, 97, 114], 0⟩ [70, 79, 79]
        = (⟨[102, 111, 98, 97, 114], 0⟩, false) := by
  refine ⟨?_, ?_, ?_, ?_, by decide, by decide, by decide, by decide⟩
  · intro b needle
    unfold fr_sbuff_adv_past_str needleAt
    dsimp only
    split_ifs with hb hm
    · simp only [Prod.mk.injEq]
      constructor
      · rintro ⟨-, h⟩
        exact absurd h (by simp)
      · rintro ⟨-, h⟩
        omega
    · simp only [Prod.mk.injEq]
      constructor
      · intro _
        exact ⟨hm, by omega⟩
      · intro _
        trivial
    · simp only [Prod.mk.injEq]
      constructor
      · rintro ⟨-, h⟩
        exact absurd h (by simp)
      · rintro ⟨h, -⟩
        exact absurd h hm
  · intro b needle
    unfold fr_sbuff_adv_past_str
    dsimp only
    split_ifs <;> simp
  · intro b needle
    unfold fr_sbuff_adv_past_strcase needleAtCase
    dsimp only
    split_ifs with hb hm
    · simp only [Prod.mk.injEq]
      constructor
      · rintro ⟨-, h⟩
        exact absurd h (by simp)
      · rintro ⟨-, h⟩
        omega
    · simp only [Prod.mk.injEq]
      constructor
      · intro _
        exact ⟨hm, by omega⟩
      · intro _
        trivial
    · simp only [Prod.mk.injEq]
      constructor
      · rintro ⟨-, h⟩
        exact absurd h (by simp)
      · rintro ⟨h, -⟩
        exact absurd h hm
  · intro b needle
    unfold fr_sbuff_adv_past_strcase
    dsimp only
    split_ifs <;> simp

/-- Claim C8 witness: the characterization applied at the "foobar" and
"fobar" scenarios of the claim. -/
theorem adv_past_str_spec_witness :
    fr_sbuff_adv_past_str ⟨[102, 111, 111, 98, 97, 114], 0⟩ [102, 111, 111]
      = (⟨[102, 111, 111, 98, 97, 114], 0 + 3⟩, true)
    ∧ fr_sbuff_adv_past_str ⟨[102, 111, 98, 97, 114], 0⟩ [102, 111, 111]
      = (⟨[102, 111, 98, 97, 114], 0⟩, false)
    ∧ fr_sbuff_adv_past_strcase ⟨[102, 111, 111, 98, 97, 114], 0⟩ [70, 79, 79]
      = (⟨[102, 111, 111, 98, 97, 114], 0 + 3⟩, true)
    ∧ fr_sbuff_adv_past_strcase ⟨[102, 111, 98, 97, 114], 0⟩ [70, 79, 79]
      = (⟨[102, 111, 98, 97, 114], 0⟩, false) :=
  ⟨(adv_past_str_spec.1 _ _).mpr ⟨by decide, by decide⟩,
   adv_past_str_spec.2.1 _ _ (by decide),
   (adv_past_str_spec.2.2.1 _ _).mpr ⟨by decide, by decide⟩,
   adv_past_str_spec.2.2.2.1 _ _ (by decide)⟩

theorem update_max_shift_eq_min (buff ms f : Nat) :
    update_max_shift buff ms f = min ms (f - buff) := by
  unfold update_max_shift
  split <;> omega

/-- The minimum of an initial amount and `pos - buff` over a list of
positions, as a fold (this is what fr_sbuff_shift's first loop computes). -/
def minAmount (buff a : Nat) (l : List Nat) : Nat :=
  l.foldl (fun x f => min x (f - buff)) a

theorem foldl_update_max_shift (buff : Nat) (l : List Nat) (a : Nat) :
    l.foldl (update_max_shift buff) a = minAmount buff a l := by
  unfold minAmount
  congr 1
  funext x f
  exact update_max_shift_eq_min buff x f

theorem foldl_foldl_positions (g : Nat → Nat → Nat) (chain : List Sview) (a : Nat) :
    chain.foldl (fun ms v => (view_positions v).foldl g ms) a
      = (chain_positions chain).foldl g a := by
  induction chain generalizing a with
  | nil => rfl
  | cons v t ih =>
    simp only [List.foldl_cons, chain_positions, List.map_cons, List.flatten_cons,
      List.foldl_append]
    exact ih _

theorem shift_max_shift_eq (buff n : Nat) (chain : List Sview) :
    chain.foldl (fun ms v => (view_positions v).foldl (update_max_shift buff) ms) n
      = minAmount buff n (chain_positions chain) := by
  rw [foldl_foldl_positions]
  exact foldl_update_max_shift _ _ _

theorem minAmount_le_init (buff a : Nat) (l : List Nat) : minAmount buff a l ≤ a := by
  induction l generalizing a with
  | nil => exact Nat.le_refl a
  | cons x t ih =>
    have h1 : minAmount buff a (x :: t) = minAmount buff (min a (x - buff)) t := rfl
    have h2 := ih (min a (x - buff))
    omega

theorem minAmount_le_mem (buff a : Nat) (l : List Nat) :
    ∀ f ∈ l, minAmount buff a l ≤ f - buff := by
  induction l generalizing a with
  | nil => simp
  | cons x t ih =>
    intro f hf
    rcases List.mem_cons.mp hf with rfl | hf
    · have h1 : minAmount buff a (f :: t) = minAmount buff (min a (f - buff)) t := rfl
      have h2 := minAmount_le_init buff (min a (f - buff)) t
      omega
    · have h1 : minAmount buff a (x :: t) = minAmount buff (min a (x - buff)) t := rfl
      have h2 := ih (min a (x - buff)) f hf
      omega

theorem minAmount_cases (buff a : Nat) (l : List Nat) :
    minAmount buff a l = a ∨ ∃ f ∈ l, minAmount buff a l = f - buff := by
  induction l generalizing a with
  | nil => exact Or.inl rfl
  | cons x t ih =>
    have h1 : minAmount buff a (x :: t) = minAmount buff (min a (x - buff)) t := rfl
    rcases ih (min a (x - buff)) with h | ⟨f, hf, h⟩
    · by_cases hc : a ≤ x - buff
      · left
        rw [h1, h]
        omega
      · right
        exact ⟨x, List.mem_cons_self x t, by rw [h1, h]; omega⟩
    · right
      exact ⟨f, List.mem_cons_of_mem _ hf, by rw [h1, h]⟩

theorem shift_update_ptr_eq_max (buff s f : Nat) :
    shift_update_ptr buff s f = max buff (f - s) := by
  unfold shift_update_ptr
  split <;> omega

theorem shift_update_ptr_funext (buff s : Nat) :
    shift_update_ptr buff s = fun f => max buff (f - s) :=
  funext (shift_update_ptr_eq_max buff s)

/-- What claim C6 states about one fr_sbuff_shift call on a state whose
operated-on view starts at `buff`: the returned amount is the minimum of the
request and of `pos - buff` over every cursor and marker in the chain; when
it is non-zero every position is decremented by it (floored at `buff`) and
every `shifted` counter accumulates it; when it is zero (some constraining
position is already at the buffer start, or the request was zero) nothing at
all is modified. -/
def ShiftSpec (st : ShiftState) (n : Nat) (buff : Nat) : Prop :=
  let r := (fr_sbuff_shift st n).2
  let st' := (fr_sbuff_shift st n).1
  r = minAmount buff n (chain_positions st.chain)
  ∧ r ≤ n
  ∧ (∀ pos ∈ chain_positions st.chain, r ≤ pos - buff)
  ∧ (r = n ∨ ∃ pos ∈ chain_positions st.chain, r = pos - buff)
  ∧ (r ≠ 0 → st'.chain = st.chain.map (fun v =>
      { v with p := max buff (v.p - r),
               shifted := v.shifted + r,
               m := v.m.map (fun mp => max buff (mp - r)) }))
  ∧ (r = 0 → st' = st)

/-- Claim C6: fr_sbuff_shift returns the minimum of the requested shift and
`position - buffer start` over the operated-on view, every ancestor and
every marker of any of them; every position is then decremented by that
amount (floored at the buffer start) and the `shifted` counters accumulate
it, while a zero result leaves every position untouched.  The hypothesis
that every position sits at or after the operated-on view's start is the
validity condition under which the source's `size_t` pointer arithmetic is
faithfully represented. -/
theorem fr_sbuff_shift_min_constraint (st : ShiftState) (n : Nat) (sb : Sview)
    (rest : List Sview) (hchain : st.chain = sb :: rest)
    (hpos : ∀ pos ∈ chain_positions st.chain, sb.start ≤ pos) :
    ShiftSpec st n sb.start := by
  obtain ⟨chain, mem, ic⟩ := st
  simp only at hchain
  subst hchain
  unfold ShiftSpec fr_sbuff_shift
  dsimp only
  rw [shift_max_shift_eq]
  by_cases h0 : minAmount sb.start n (chain_positions (sb :: rest)) = 0
  · rw [if_pos h0]
    dsimp only
    refine ⟨h0.symm, ?_, ?_, ?_, ?_, fun _ => rfl⟩
    · have := minAmount_le_init sb.start n (chain_positions (sb :: rest))
      omega
    · intro pos hp
      have := minAmount_le_mem sb.start n (chain_positions (sb :: rest)) pos hp
      omega
    · rcases minAmount_cases sb.start n (chain_positions (sb :: rest)) with h | ⟨f, hf, h⟩
      · exact Or.inl (h0.symm.trans h)
      · exact Or.inr ⟨f, hf, h0.symm.trans h⟩
    · intro hne
      exact absurd rfl hne
  · rw [if_neg h0]
    dsimp only
    refine ⟨rfl, minAmount_le_init _ _ _, minAmount_le_mem _ _ _, minAmount_cases _ _ _,
      fun _ => ?_, fun hz => absurd hz h0⟩
    simp only [shift_update_ptr_funext]

/-- Claim C6 witness: the shift characterization on a one-view chain with a
marker at offset 1 (the returned amount is min 4 5 1 = 1). -/
theorem fr_sbuff_shift_min_constraint_witness :
    ShiftSpec ⟨[⟨0, 9, 5, 0, [1]⟩], List.replicate 10 7, false⟩ 4 0 :=
  fr_sbuff_shift_min_constraint _ 4 ⟨0, 9, 5, 0, [1]⟩ [] rfl (by decide)

/-- What the amended claim C7 states about one fr_sbuff_shift call:
the buffer contents are NOT moved.  Every byte of the backing memory is
unchanged, except that when the byte at the old cursor was the NUL
terminator and the view is not const, a NUL is written at the rebased
cursor position; moving `[r, used)` down to `[0, used - r)` is explicitly
left to the caller (memmove) by the source. -/
def ShiftContentSpec (st : ShiftState) (n : Nat) (sb : Sview) : Prop :=
  let r := (fr_sbuff_shift st n).2
  let mem' := (fr_sbuff_shift st n).1.mem
  let newP := shift_update_ptr sb.start r sb.p
  mem'.length = st.mem.length
  ∧ ((st.mem.getD sb.p 1 ≠ 0 ∨ st.is_const = true) → mem' = st.mem)
  ∧ (∀ i : Nat, i ≠ newP → mem'.getD i 0 = st.mem.getD i 0)
  ∧ (mem' = st.mem ∨ mem' = st.mem.set newP 0)

/-- Claim C7 (amended): a shift of n bytes does not move the remaining
content down; it only rebases positions.  The backing bytes are unchanged
except possibly for a NUL terminator rewritten at the new cursor position;
the memmove of `[n, used)` down to `[0, used - n)` is the caller's job. -/
theorem fr_sbuff_shift_content (st : ShiftState) (n : Nat) (sb : Sview)
    (rest : List Sview) (hchain : st.chain = sb :: rest) :
    ShiftContentSpec st n sb := by
  obtain ⟨chain, mem, ic⟩ := st
  simp only at hchain
  subst hchain
  unfold ShiftContentSpec fr_sbuff_shift
  dsimp only
  by_cases h0 :
      (sb :: rest).foldl
        (fun ms v => (view_positions v).foldl (update_max_shift sb.start) ms) n = 0
  · rw [if_pos h0]
    exact ⟨rfl, fun _ => rfl, fun i _ => rfl, Or.inl rfl⟩
  · rw [if_neg h0]
    dsimp only
    by_cases hret : mem.getD sb.p 1 = 0 && !ic
    · rw [if_pos hret]
      refine ⟨List.length_set _ _ _, ?_, ?_, Or.inr rfl⟩
      · intro hc
        simp only [Bool.and_eq_true, Bool.not_eq_true', decide_eq_true_eq] at hret
        rcases hc with hc | hc
        · exact absurd hret.1 hc
        · rw [hc] at hret
          exact Bool.noConfusion hret.2
      · intro i hi
        rw [List.getD_eq_getElem?_getD, List.getD_eq_getElem?_getD,
          List.getElem?_set_ne (Ne.symm hi)]
    · rw [if_neg hret]
      exact ⟨rfl, fun _ => rfl, fun i _ => rfl, Or.inl rfl⟩

/-- Claim C7 witness: the content theorem on a terminated buffer (cursor on
the NUL at offset 2): the only byte that changes is the terminator
rewritten at the new cursor. -/
theorem fr_sbuff_shift_content_witness :
    ShiftContentSpec ⟨[⟨0, 4, 2, 0, []⟩], [97, 98, 0, 100], false⟩ 2 ⟨0, 4, 2, 0, []⟩ :=
  fr_sbuff_shift_content _ 2 _ [] rfl

/-- The core view invariant of the spec: `start ≤ p ≤ end`. -/
def SviewInv (v : Sview) : Prop := v.start ≤ v.p ∧ v.p ≤ v.endp

instance (v : Sview) : Decidable (SviewInv v) := by
  unfold SviewInv
  infer_instance

/-- The view invariant on the read-side embedding (`start ≤ p ≤ end` with
`start = 0` and `end = data.length`). -/
def SrcInv (b : SrcBuf) : Prop := b.pos ≤ b.data.length

instance (b : SrcBuf) : Decidable (SrcInv b) := by
  unfold SrcInv
  infer_instance

theorem fr_sbuff_update_view_inv (o nb nl : Nat) (v : Sview) (h : v.start ≤ v.p) :
    SviewInv (fr_sbuff_update_view o nb nl v).1 := by
  unfold fr_sbuff_update_view update_ptr SviewInv
  dsimp only
  split_ifs <;> constructor <;> omega

theorem fr_sbuff_update_inv (chain : List Sview) (nb nl : Nat)
    (h : ∀ v ∈ chain, v.start ≤ v.p) :
    ∀ v' ∈ (fr_sbuff_update chain nb nl).1, SviewInv v' := by
  cases chain with
  | nil => simp [fr_sbuff_update]
  | cons v t =>
    intro v' hv'
    unfold fr_sbuff_update at hv'
    dsimp only at hv'
    rw [List.map_map] at hv'
    obtain ⟨u, hu, rfl⟩ := List.mem_map.mp hv'
    exact fr_sbuff_update_view_inv _ _ _ u (h u hu)

theorem fr_sbuff_update_single (v : Sview) (nb nl : Nat) :
    (fr_sbuff_update [v] nb nl).1 = [(fr_sbuff_update_view v.start nb nl v).1] := rfl

/-- Claim C9: `start ≤ p ≤ end` is preserved by every operation of the
exposed surface: the copy primitives (exact and best-effort), advance,
extend, shift, trim and the underlying rebase (update).  For shift, the
hypotheses say the chain is a validly initialized hierarchy (each view
satisfies the invariant, ancestors start no later than the operated-on view
and no tracked cursor sits before it); for update only `start ≤ p` of each
input view is needed. -/
theorem start_p_end_invariant :
    (∀ (outlen : Nat) (inb : SrcBuf) (len : Nat), SrcInv inb →
        SrcInv (fr_sbuff_out_bstrncpy_exact outlen inb len).2.2)
    ∧ (∀ (outlen : Nat) (inb : SrcBuf) (len : Nat), SrcInv inb →
        SrcInv (fr_sbuff_out_bstrncpy outlen inb len).2.2)
    ∧ (∀ (inb : SrcBuf) (n : Nat), SrcInv inb → SrcInv (fr_sbuff_advance inb n).1)
    ∧ (∀ (b : DynBuf) (ext : Nat), SviewInv b.view →
        SviewInv (fr_sbuff_extend_talloc b ext).1.view)
    ∧ (∀ (st : ShiftState) (n : Nat) (sb : Sview) (rest : List Sview),
        st.chain = sb :: rest →
        (∀ v ∈ st.chain, SviewInv v ∧ v.start ≤ sb.start ∧ sb.start ≤ v.p) →
        ∀ v' ∈ (fr_sbuff_shift st n).1.chain, SviewInv v')
    ∧ (∀ b : DynBuf, SviewInv b.view → SviewInv (fr_sbuff_trim_talloc b).1.view)
    ∧ (∀ (chain : List Sview) (nb nl : Nat), (∀ v ∈ chain, v.start ≤ v.p) →
        ∀ v' ∈ (fr_sbuff_update chain nb nl).1, SviewInv v') := by
  refine ⟨?_, ?_, ?_, ?_, ?_, ?_, fr_sbuff_update_inv⟩
  · intro outlen inb len h
    unfold fr_sbuff_out_bstrncpy_exact fr_sbuff_advance SrcInv at *
    dsimp only
    split_ifs <;> dsimp only <;> omega
  · intro outlen inb len h
    unfold fr_sbuff_out_bstrncpy fr_sbuff_advance SrcInv at *
    dsimp only
    split_ifs <;> dsimp only <;> omega
  · intro inb n h
    unfold fr_sbuff_advance SrcInv at *
    split_ifs <;> dsimp only <;> omega
  · intro b ext h
    unfold fr_sbuff_extend_talloc
    dsimp only
    split_ifs <;>
      first
        | exact h
        | (dsimp only
           rw [fr_sbuff_update_single]
           dsimp only [List.headD]
           exact fr_sbuff_update_view_inv _ _ _ _ h.1)
  · intro st n sb rest hchain hs
    obtain ⟨chain, mem, ic⟩ := st
    simp only at hchain
    subst hchain
    unfold fr_sbuff_shift
    dsimp only
    by_cases h0 :
        (sb :: rest).foldl
          (fun ms v => (view_positions v).foldl (update_max_shift sb.start) ms) n = 0
    · rw [if_pos h0]
      exact fun v' hv' => (hs v' hv').1
    · rw [if_neg h0]
      dsimp only
      intro v' hv'
      obtain ⟨u, hu, rfl⟩ := List.mem_map.mp hv'
      obtain ⟨⟨hu1, hu2⟩, hustart, hup⟩ := hs u hu
      unfold SviewInv
      dsimp only
      rw [shift_update_ptr_eq_max]
      constructor <;> omega
  · intro b h
    unfold fr_sbuff_trim_talloc
    dsimp only
    split_ifs <;>
      first
        | exact h
        | (dsimp only
           rw [fr_sbuff_update_single]
           dsimp only [List.headD]
           exact fr_sbuff_update_view_inv _ _ _ _ h.1)

/-- Claim C9 witness: the invariant-preservation theorem instantiated on a
concrete copy, advance, extend, shift, trim and update. -/
theorem start_p_end_invariant_witness :
    SrcInv (fr_sbuff_out_bstrncpy_exact 19 ⟨[97, 98], 0⟩ 1).2.2
    ∧ SrcInv (fr_sbuff_out_bstrncpy 19 ⟨[97, 98], 0⟩ 5).2.2
    ∧ SrcInv (fr_sbuff_advance ⟨[97, 98], 1⟩ 1).1
    ∧ SviewInv (fr_sbuff_extend_talloc (fr_sbuff_init_talloc 32 50) 10).1.view
    ∧ (∀ v' ∈ (fr_sbuff_shift ⟨[⟨0, 9, 5, 0, [1]⟩], List.replicate 10 7, false⟩ 4).1.chain,
        SviewInv v')
    ∧ SviewInv (fr_sbuff_trim_talloc (fr_sbuff_init_talloc 32 50)).1.view
    ∧ (∀ v' ∈ (fr_sbuff_update [⟨0, 5, 2, 0, [5]⟩] 4 3).1, SviewInv v') :=
  ⟨start_p_end_invariant.1 19 ⟨[97, 98], 0⟩ 1 (by decide),
   start_p_end_invariant.2.1 19 ⟨[97, 98], 0⟩ 5 (by decide),
   start_p_end_invariant.2.2.1 ⟨[97, 98], 1⟩ 1 (by decide),
   start_p_end_invariant.2.2.2.1 (fr_sbuff_init_talloc 32 50) 10 (by decide),
   start_p_end_invariant.2.2.2.2.1 ⟨[⟨0, 9, 5, 0, [1]⟩], List.replicate 10 7, false⟩ 4
     ⟨0, 9, 5, 0, [1]⟩ [] rfl (by decide),
   start_p_end_invariant.2.2.2.2.2.1 (fr_sbuff_init_talloc 32 50) (by decide),
   start_p_end_invariant.2.2.2.2.2.2 [⟨0, 5, 2, 0, [5]⟩] 4 3 (by decide)⟩

theorem W_eq : W = 18446744073709551616 := rfl

/-- Claim C3: the talloc growth policy.  (1) When the current allocation
plus the request is below the configured initial size, the buffer grows to
exactly `init + 1` (initial size plus terminator).  (2) When the request is
smaller than the current allocation, the allocation is doubled
(`clen + (clen - 1)`, the terminator byte not doubled).  (3) The final size
is clamped so content never exceeds `max` (allocation `max + 1`, one byte
reserved for the terminator).  (4) When the allocation already is at or a
byte beyond `max`, 0 is returned: no bytes can be added.  (5) The concrete
init=32/max=50 scenario: the initial allocation is 33; an immediate trim
drops it to 1; a 10-byte write restores allocation 33 with 10 bytes used;
the write taking the used count past 40 doubles capped at allocation 51;
and the write that would exceed 50 content bytes fails with -1 leaving the
buffer (content included) unchanged. -/
theorem extend_talloc_policy :
    (∀ (b : DynBuf) (ext : Nat), b.alloc + ext < b.tctx.init →
        (b.tctx.max = 0 ∨ b.tctx.init + 1 ≤ b.tctx.max) →
        (fr_sbuff_extend_talloc b ext).1.alloc = b.tctx.init + 1
        ∧ (fr_sbuff_extend_talloc b ext).2 = (b.tctx.init - b.alloc) + 1)
    ∧ (∀ (b : DynBuf) (ext : Nat), ¬(b.alloc + ext < b.tctx.init) → ext < b.alloc →
        (b.tctx.max = 0 ∨ b.alloc + (b.alloc - 1) ≤ b.tctx.max) →
        (fr_sbuff_extend_talloc b ext).1.alloc = b.alloc + (b.alloc - 1)
        ∧ (fr_sbuff_extend_talloc b ext).2 = b.alloc - 1)
    ∧ (∀ (b : DynBuf) (ext : Nat), b.tctx.max ≠ 0 → b.tctx.max + 1 < W →
        b.alloc < b.tctx.max →
        b.alloc + extend_elen0 b.tctx.init b.alloc ext > b.tctx.max →
        (fr_sbuff_extend_talloc b ext).1.alloc = b.tctx.max + 1
        ∧ (fr_sbuff_extend_talloc b ext).2 = (b.tctx.max - b.alloc) + 1)
    ∧ (∀ (b : DynBuf) (ext : Nat), b.tctx.max ≠ 0 → 2 ≤ b.tctx.max →
        b.tctx.max + 1 < W → ¬(b.alloc + ext < b.tctx.init) → 1 ≤ ext →
        b.tctx.max ≤ b.alloc → b.alloc ≤ b.tctx.max + 1 →
        (fr_sbuff_extend_talloc b ext).2 = 0
        ∧ (fr_sbuff_extend_talloc b ext).1.alloc = b.alloc)
    ∧ (let s0 := fr_sbuff_init_talloc 32 50
       let t1 := (fr_sbuff_trim_talloc s0).1
       let r2 := fr_sbuff_in_strcpy t1 [48, 49, 50, 51, 52, 53, 54, 55, 56, 57]
       let s3 := (fr_sbuff_trim_talloc r2.1).1
       let s4 := (fr_sbuff_in_strcpy s3 [48, 49, 50, 51, 52, 53, 54, 55, 56, 57]).1
       let s5 := (fr_sbuff_trim_talloc s4).1
       let s6 := (fr_sbuff_in_strcpy s5 [48, 49, 50, 51, 52, 53, 54, 55, 56, 57, 48, 49, 50, 51, 52]).1
       let s7 := (fr_sbuff_in_strcpy s6 [65]).1
       let s8 := (fr_sbuff_in_strcpy s7 [66, 67, 68, 69]).1
       let r9 := fr_sbuff_in_strcpy s8 [70]
       let r10 := fr_sbuff_in_strcpy r9.1 [71, 72, 73, 74, 75, 76, 77, 78, 79]
       let r11 := fr_sbuff_in_strcpy r10.1 [80]
       s0.alloc = 33 ∧ s0.used = 0
       ∧ t1.alloc = 1
       ∧ r2.2 = 10 ∧ r2.1.alloc = 33 ∧ r2.1.used = 10
       ∧ s8.alloc = 41 ∧ s8.used = 40
       ∧ r9.2 = 1 ∧ r9.1.alloc = 51 ∧ r9.1.used = 41
       ∧ r10.1.alloc = 51 ∧ r10.1.used = 50
       ∧ r11.2 = -1 ∧ r11.1 = r10.1) := by
  refine ⟨?_, ?_, ?_, ?_, by decide⟩
  · intro b ext h1 h2
    unfold fr_sbuff_extend_talloc extend_elen0
    dsimp only
    rw [if_pos h1]
    have hne : ¬(b.tctx.max ≠ 0 ∧ b.alloc + (b.tctx.init - b.alloc + 1) > b.tctx.max) := by
      rcases h2 with h2 | h2 <;> simp only [ne_eq, not_and, not_lt, gt_iff_lt] <;> omega
    rw [if_neg hne]
    dsimp only
    omega
  · intro b ext h1 h2 h3
    unfold fr_sbuff_extend_talloc extend_elen0
    dsimp only
    rw [if_neg h1, if_pos h2]
    have hne : ¬(b.tctx.max ≠ 0 ∧ b.alloc + (b.alloc - 1) > b.tctx.max) := by
      rcases h3 with h3 | h3 <;> simp only [ne_eq, not_and, not_lt, gt_iff_lt] <;> omega
    rw [if_neg hne]
    dsimp only
    omega
  · intro b ext hm0 hmW hlt hgt
    unfold fr_sbuff_extend_talloc
    dsimp only
    rw [if_pos ⟨hm0, hgt⟩]
    have e2 : (b.tctx.max + W - b.alloc) % W = b.tctx.max - b.alloc := by
      rw [W_eq] at *
      omega
    rw [e2, if_neg (by omega : ¬(b.tctx.max - b.alloc = 0))]
    have e3 : (b.tctx.max - b.alloc + 1) % W = b.tctx.max - b.alloc + 1 := by
      rw [W_eq] at *
      omega
    rw [e3]
    have e4 : (b.alloc + (b.tctx.max - b.alloc + 1)) % W = b.tctx.max + 1 := by
      rw [W_eq] at *
      omega
    rw [e4]
    dsimp only
    omega
  · intro b ext hm0 hm2 hmW hni hx1 hcl hcu
    unfold fr_sbuff_extend_talloc extend_elen0
    dsimp only
    rw [if_neg hni]
    by_cases hex : ext < b.alloc
    · rw [if_pos hex]
      rw [if_pos (⟨hm0, by omega⟩ : b.tctx.max ≠ 0 ∧ b.alloc + (b.alloc - 1) > b.tctx.max)]
      by_cases hEq : b.alloc = b.tctx.max
      · have e2 : (b.tctx.max + W - b.alloc) % W = 0 := by
          rw [W_eq] at *
          omega
        rw [if_pos e2]
        exact ⟨rfl, rfl⟩
      · have hal : b.alloc = b.tctx.max + 1 := by omega
        have e2 : (b.tctx.max + W - b.alloc) % W = W - 1 := by
          rw [W_eq] at *
          omega
        rw [e2, if_neg (by rw [W_eq]; omega : ¬(W - 1 = 0))]
        have e3 : (W - 1 + 1) % W = 0 := by
          rw [W_eq]
        have e4 : (b.alloc + (W - 1 + 1) % W) % W = b.alloc := by
          rw [W_eq] at *
          omega
        rw [e4, e3]
        exact ⟨rfl, rfl⟩
    · rw [if_neg hex]
      rw [if_pos (⟨hm0, by omega⟩ : b.tctx.max ≠ 0 ∧ b.alloc + ext > b.tctx.max)]
      by_cases hEq : b.alloc = b.tctx.max
      · have e2 : (b.tctx.max + W - b.alloc) % W = 0 := by
          rw [W_eq] at *
          omega
        rw [if_pos e2]
        exact ⟨rfl, rfl⟩
      · have hal : b.alloc = b.tctx.max + 1 := by omega
        have e2 : (b.tctx.max + W - b.alloc) % W = W - 1 := by
          rw [W_eq] at *
          omega
        rw [e2, if_neg (by rw [W_eq]; omega : ¬(W - 1 = 0))]
        have e3 : (W - 1 + 1) % W = 0 := by
          rw [W_eq]
        have e4 : (b.alloc + (W - 1 + 1) % W) % W = b.alloc := by
          rw [W_eq] at *
          omega
        rw [e4, e3]
        exact ⟨rfl, rfl⟩

/-- Claim C3 witness: the four policy clauses instantiated at the
allocation sizes the init=32/max=50 test sequence reaches (grow-to-init
from a trimmed 1-byte allocation, doubling at 21, the doubling at 41 capped
to 51, and the failed extension at 51). -/
theorem extend_talloc_policy_witness :
    (fr_sbuff_extend_talloc ⟨1, ⟨0, 0, 0, 0, []⟩, [], ⟨32, 50⟩⟩ 10).1.alloc = 33
    ∧ (fr_sbuff_extend_talloc ⟨1, ⟨0, 0, 0, 0, []⟩, [], ⟨32, 50⟩⟩ 10).2 = 32
    ∧ (fr_sbuff_extend_talloc ⟨21, ⟨0, 20, 20, 0, []⟩, [], ⟨32, 50⟩⟩ 15).1.alloc = 41
    ∧ (fr_sbuff_extend_talloc ⟨21, ⟨0, 20, 20, 0, []⟩, [], ⟨32, 50⟩⟩ 15).2 = 20
    ∧ (fr_sbuff_extend_talloc ⟨41, ⟨0, 40, 40, 0, []⟩, [], ⟨32, 50⟩⟩ 1).1.alloc = 51
    ∧ (fr_sbuff_extend_talloc ⟨41, ⟨0, 40, 40, 0, []⟩, [], ⟨32, 50⟩⟩ 1).2 = 10
    ∧ (fr_sbuff_extend_talloc ⟨51, ⟨0, 50, 50, 0, []⟩, [], ⟨32, 50⟩⟩ 1).2 = 0
    ∧ (fr_sbuff_extend_talloc ⟨51, ⟨0, 50, 50, 0, []⟩, [], ⟨32, 50⟩⟩ 1).1.alloc = 51 := by
  have h1 := extend_talloc_policy.1 ⟨1, ⟨0, 0, 0, 0, []⟩, [], ⟨32, 50⟩⟩ 10
    (by decide) (Or.inr (by decide))
  have h2 := extend_talloc_policy.2.1 ⟨21, ⟨0, 20, 20, 0, []⟩, [], ⟨32, 50⟩⟩ 15
    (by decide) (by decide) (Or.inr (by decide))
  have h3 := extend_talloc_policy.2.2.1 ⟨41, ⟨0, 40, 40, 0, []⟩, [], ⟨32, 50⟩⟩ 1
    (by decide) (by decide) (by decide) (by decide)
  have h4 := extend_talloc_policy.2.2.2.1 ⟨51, ⟨0, 50, 50, 0, []⟩, [], ⟨32, 50⟩⟩ 1
    (by decide) (by decide) (by decide) (by decide) (by decide) (by decide) (by decide)
  exact ⟨h1.1, h1.2, h2.1, h2.2, h3.1, h3.2, h4.1, h4.2⟩

end Sbuff
